import Mathlib

/-!
Verification development for the low-wastage-regression repository.

The repository sizes first resource allocations for batch jobs from
historical data.  Its core pieces are a wastage engine (per-policy retry
cost functions and population aggregates) and a sizing-model optimizer
(`low_wastage_regression.py`).  The engine module `wastage.py` is not part
of the available sources (only its tests and callers are), so the engine
definitions below are modelled from the specification and pinned to the
concrete values asserted by the repository's own tests.  All numeric code
is embedded over `ℚ`, so every stated equality is exact and in particular
holds to any number of decimal places.
-/

/-- Modelled from the spec: the `Wastage` result record of the missing
`wastage.py` module: total oversizing, undersizing, productive usage and
failure count of a job population. -/
structure Wastage where
  oversizing : ℚ
  undersizing : ℚ
  usage : ℚ
  failures : ℕ
deriving Repr, DecidableEq

/-- Modelled from the spec: derived Mean Allocation Quality
`usage / (usage + oversizing + undersizing)`. -/
def Wastage.maq (w : Wastage) : ℚ :=
  w.usage / (w.usage + w.oversizing + w.undersizing)

/-- Fuel-indexed search for the first attempt index whose allocation
`a * base ^ k` reaches the real usage `r`; attempt `k` requests the
allocation of the previous attempt times `base`. -/
def kstarAux : ℕ → ℚ → ℚ → ℚ → ℕ
  | 0, _, _, _ => 0
  | fuel + 1, a, b, r => if r ≤ a then 0 else kstarAux fuel (a * b) b r + 1

/-- Fuel that provably suffices for `kstarAux` when `0 < a` and `1 < b`
(a Bernoulli bound on the exponential escalation). -/
def kstarFuel (a b r : ℚ) : ℕ :=
  ⌈(r / a - 1) / (b - 1)⌉₊ + 1

/-- Modelled from the spec: the failure count `k*` of the exponential
retry escalation, the smallest `k` with `a * b ^ k ≥ r` (finite because
`base > 1`). -/
def kstar (a b r : ℚ) : ℕ :=
  kstarAux (kstarFuel a b r) a b r

/-- Sum of the allocations of the first `k` attempts of the exponential
escalation starting at `a` with growth factor `b`. -/
def sumAlloc (a b : ℚ) : ℕ → ℚ
  | 0 => 0
  | k + 1 => sumAlloc a b k + a * b ^ k

/-- Sum of the squared allocations of the first `k` attempts of the
exponential escalation. -/
def sumAllocSq (a b : ℚ) : ℕ → ℚ
  | 0 => 0
  | k + 1 => sumAllocSq a b k + (a * b ^ k) ^ 2

/-- Modelled from the spec: per-job exponential-policy oversizing,
`(allocation_{k*} - real_usage) * run_time` (values pinned by
`test_oversizing_exponential` in `test_wastage.py`). -/
def oversizing_wastage_exponential (real_usage run_time first_allocation base : ℚ) : ℚ :=
  (first_allocation * base ^ kstar first_allocation base real_usage - real_usage) * run_time

/-- Modelled from the spec: per-job exponential-policy undersizing and
failure count, `abs_ttf * Σ_{k<k*} allocation_k` (values pinned by
`test_undersizing_exponential` in `test_wastage.py`). -/
def undersizing_wastage_exponential (real_usage abs_ttf first_allocation base : ℚ) : ℚ × ℕ :=
  let k := kstar first_allocation base real_usage
  (abs_ttf * sumAlloc first_allocation base k, k)

/-- Modelled from the spec: per-job proportional-time-to-failure
undersizing and failure count, `(run_time / real_usage) * Σ allocation_k ^ 2`
(the retry sequence is the exponential one). -/
def undersizing_wastage_prop_ttf (real_usage run_time first_allocation base : ℚ) : ℚ × ℕ :=
  let k := kstar first_allocation base real_usage
  (run_time / real_usage * sumAllocSq first_allocation base k, k)

/-- Modelled from the spec: per-job three-step-policy oversizing.  The
precondition `final_allocation ≥ real_usage` is checked up front,
independent of which attempt succeeds; its violation is the fatal error
(`none`).  Values pinned by `test_oversizing_3step` in `test_wastage.py`. -/
def oversizing_wastage_3step (real_usage run_time first_allocation second_allocation final_allocation : ℚ) :
    Option ℚ :=
  if final_allocation < real_usage then none
  else some
    (((if real_usage ≤ first_allocation then first_allocation
       else if real_usage ≤ second_allocation then second_allocation
       else final_allocation) - real_usage) * run_time)

/-- Modelled from the spec: per-job three-step-policy undersizing and
failure count, `abs_ttf * Σ` of the failed attempts' allocations (values
pinned by `test_undersizing_3step` in `test_wastage.py`). -/
def undersizing_wastage_3step (real_usage abs_ttf first_allocation second_allocation : ℚ) : ℚ × ℕ :=
  if real_usage ≤ first_allocation then (0, 0)
  else if real_usage ≤ second_allocation then (abs_ttf * first_allocation, 1)
  else (abs_ttf * (first_allocation + second_allocation), 2)

/-- One row of a job population as the wastage engine reads it: the
`rss`, `run_time` and `first_allocation` columns. -/
structure Job where
  rss : ℚ
  run_time : ℚ
  first_allocation : ℚ
deriving Repr, DecidableEq

/-- Modelled from the spec: vectorized exponential-policy population
aggregate: closed-form per-job costs summed over the whole population,
`usage = Σ run_time * rss`; an empty population is a fatal error. -/
def wastage_exponential (df : List Job) (relative_ttf base : ℚ) : Option Wastage :=
  if df = [] then none
  else some
    { oversizing := (df.map fun j =>
        oversizing_wastage_exponential j.rss j.run_time j.first_allocation base).sum
      undersizing := (df.map fun j =>
        (undersizing_wastage_exponential j.rss (j.run_time * relative_ttf) j.first_allocation base).1).sum
      usage := (df.map fun j => j.run_time * j.rss).sum
      failures := (df.map fun j =>
        (undersizing_wastage_exponential j.rss (j.run_time * relative_ttf) j.first_allocation base).2).sum }

/-- Modelled from the spec: vectorized proportional-time-to-failure
population aggregate (values pinned by `test_wastage_proportional_ttf`). -/
def wastage_exponential_prop_ttf (df : List Job) (base : ℚ) : Option Wastage :=
  if df = [] then none
  else some
    { oversizing := (df.map fun j =>
        oversizing_wastage_exponential j.rss j.run_time j.first_allocation base).sum
      undersizing := (df.map fun j =>
        (undersizing_wastage_prop_ttf j.rss j.run_time j.first_allocation base).1).sum
      usage := (df.map fun j => j.run_time * j.rss).sum
      failures := (df.map fun j =>
        (undersizing_wastage_prop_ttf j.rss j.run_time j.first_allocation base).2).sum }

/-- Modelled from the spec: vectorized three-step population aggregate;
any job violating the `final_allocation ≥ rss` precondition makes the
whole computation the fatal error `none`. -/
def wastage_3step (df : List Job) (max_seen_so_far max_available relative_ttf : ℚ) : Option Wastage :=
  if df = [] then none
  else if df.any fun j => max_available < j.rss then none
  else some
    { oversizing := (df.map fun j =>
        ((if j.rss ≤ j.first_allocation then j.first_allocation
          else if j.rss ≤ max_seen_so_far then max_seen_so_far
          else max_available) - j.rss) * j.run_time).sum
      undersizing := (df.map fun j =>
        (undersizing_wastage_3step j.rss (relative_ttf * j.run_time) j.first_allocation max_seen_so_far).1).sum
      usage := (df.map fun j => j.run_time * j.rss).sum
      failures := (df.map fun j =>
        (undersizing_wastage_3step j.rss (relative_ttf * j.run_time) j.first_allocation max_seen_so_far).2).sum }

/-- Modelled from the spec: simple-policy population aggregate.  A job
succeeds immediately if `first_allocation ≥ rss` (its excess is
oversizing and its `rss` counts as usage); otherwise it fails once and
its whole `first_allocation` is undersizing (values pinned by
`test_wastage_simple`: usage 6, oversizing 3, undersizing 6, failures 2 on
`rss = [1,2,3,4,5]`, constant first allocation 3). -/
def wastage_simple (df : List Job) : Option Wastage :=
  if df = [] then none
  else some
    { oversizing := (df.map fun j =>
        if j.rss ≤ j.first_allocation then j.first_allocation - j.rss else 0).sum
      undersizing := (df.map fun j =>
        if j.rss ≤ j.first_allocation then 0 else j.first_allocation).sum
      usage := (df.map fun j => if j.rss ≤ j.first_allocation then j.rss else 0).sum
      failures := (df.map fun j => if j.rss ≤ j.first_allocation then 0 else 1).sum }

/-- Naive exponential-policy reference loop of `test_wastage.py`
(`wastage_exponential_naive`): per-job costs accumulated row by row,
`usage = sum(df.run_time * df.rss)`; asserts a non-empty population. -/
def wastage_exponential_naive (df : List Job) (relative_ttf base : ℚ) : Option Wastage :=
  if df = [] then none
  else
    let acc := df.foldl
      (fun (acc : ℚ × ℚ × ℕ) row =>
        let u := undersizing_wastage_exponential row.rss (row.run_time * relative_ttf) row.first_allocation base
        (acc.1 + oversizing_wastage_exponential row.rss row.run_time row.first_allocation base,
         acc.2.1 + u.1, acc.2.2 + u.2))
      (0, 0, 0)
    some { oversizing := acc.1, undersizing := acc.2.1,
           usage := (df.map fun j => j.run_time * j.rss).sum, failures := acc.2.2 }

/-- Naive three-step reference loop of `test_wastage.py`
(`wastage_3step_naive`): row-by-row accumulation, aborting with the fatal
error of the first row whose precondition fails; asserts a non-empty
population. -/
def wastage_3step_rows (max_seen_so_far max_available relative_ttf : ℚ) :
    List Job → Option (ℚ × ℚ × ℕ)
  | [] => some (0, 0, 0)
  | row :: rest => do
    let o ← oversizing_wastage_3step row.rss row.run_time row.first_allocation max_seen_so_far max_available
    let u := undersizing_wastage_3step row.rss (relative_ttf * row.run_time) row.first_allocation max_seen_so_far
    let acc ← wastage_3step_rows max_seen_so_far max_available relative_ttf rest
    some (o + acc.1, u.1 + acc.2.1, u.2 + acc.2.2)

/-- Naive three-step reference aggregate of `test_wastage.py`, assembled
from the row loop and `usage = sum(df.run_time * df.rss)`. -/
def wastage_3step_naive (df : List Job) (max_seen_so_far max_available relative_ttf : ℚ) :
    Option Wastage :=
  if df = [] then none
  else
    (wastage_3step_rows max_seen_so_far max_available relative_ttf df).map fun acc =>
      { oversizing := acc.1, undersizing := acc.2.1,
        usage := (df.map fun j => j.run_time * j.rss).sum, failures := acc.2.2 }

/-- Linear sizing model of `low_wastage_regression.py`: slope, intercept,
retry growth factor `base` and the `min_allocation` floor. -/
structure LinearModel where
  slope : ℚ
  intercept : ℚ
  base : ℚ
  min_allocation : ℚ
deriving Repr, DecidableEq

/-- The `LinearModel.apply` sizing function,
`np.clip(x * slope + intercept, a_min=min_allocation)`. -/
def LinearModel.apply (m : LinearModel) (x : ℚ) : ℚ :=
  max m.min_allocation (x * m.slope + m.intercept)

/-- Minimum of a column (`np.min`); zero on an empty column. -/
def col_min : List ℚ → ℚ
  | [] => 0
  | x :: xs => xs.foldl min x

/-- Maximum of a column; zero on an empty column. -/
def col_max : List ℚ → ℚ
  | [] => 0
  | x :: xs => xs.foldl max x

/-- Peak-to-peak range of a column (`np.ptp`). -/
def col_ptp (v : List ℚ) : ℚ :=
  col_max v - col_min v

/-- The per-column shift of the training normalization (its minimum),
as computed in `LowWastageRegression.__init__`. -/
def col_shift (v : List ℚ) : ℚ :=
  col_min v

/-- The per-column scale of the training normalization: the range, or 1
when the range is zero (`LowWastageRegression.__init__`). -/
def col_scale (v : List ℚ) : ℚ :=
  if col_ptp v ≠ 0 then col_ptp v else 1

/-- The `__transform__` map on one column: `(x - shift) / scale`. -/
def transform_column (shift scale : ℚ) (v : List ℚ) : List ℚ :=
  v.map fun x => (x - shift) / scale

/-- The `__inverse_transform__` map on one column: `x * scale + shift`. -/
def inverse_transform_column (shift scale : ℚ) (v : List ℚ) : List ℚ :=
  v.map fun x => x * scale + shift

/-- The `__predictor_varies_enough__` guard:
`initial_ptp[predictor] > 0.05 * unscaled_mean_predictor`. -/
def predictor_varies_enough (initial_ptp unscaled_mean_predictor : ℚ) : Bool :=
  decide (0.05 * unscaled_mean_predictor < initial_ptp)

/-- The quantile sweep of `__quantile_regression__`:
`1 - a ^ 2` for `a` in `np.linspace(0.01, 0.7, 5)`. -/
def quantile_candidates : List ℚ :=
  (List.range 5).map fun i => 1 - (1 / 100 + (i : ℚ) * (69 / 400)) ^ 2

/-- Insertion of a value into a sorted column. -/
def insertSorted (x : ℚ) : List ℚ → List ℚ
  | [] => [x]
  | y :: ys => if x ≤ y then x :: y :: ys else y :: insertSorted x ys

/-- Sorting a column ascending, as pandas quantile does internally. -/
def sortColumn (v : List ℚ) : List ℚ :=
  v.foldr insertSorted []

/-- The pandas `Series.quantile` with the default linear interpolation:
at level `q` over `n` sorted values, position `h = q * (n - 1)` is split
into its floor `i` and fraction, and the result interpolates between the
values at `i` and `i + 1`. -/
def pandas_quantile (v : List ℚ) (q : ℚ) : ℚ :=
  let s := sortColumn v
  match s with
  | [] => 0
  | _ :: _ =>
    let h : ℚ := q * ((s.length : ℚ) - 1)
    let i : ℕ := (⌊h⌋).toNat
    let lo := s.getD i 0
    let hi := s.getD (i + 1) lo
    lo + (h - (i : ℚ)) * (hi - lo)

/-- The uninformative-predictor branch of `__quantile_regression__`
(line 80 of `low_wastage_regression.py`): for each quantile level a
zero-slope model whose intercept is that quantile of the (normalized)
PREDICTOR column of the training data, with base 2. -/
def quantile_regression_uninformative (training_predictor : List ℚ) (min_allocation : ℚ) :
    List LinearModel :=
  quantile_candidates.map fun q =>
    { slope := 0, intercept := pandas_quantile training_predictor q, base := 2,
      min_allocation := min_allocation }

/-- Follows the spec's words, for comparison with the source: the
uninformative-predictor branch is said to return, per quantile level, a
zero-slope model whose intercept is that quantile of the RESOURCE column. -/
def quantile_regression_uninformative_spec (training_resource : List ℚ) (min_allocation : ℚ) :
    List LinearModel :=
  quantile_candidates.map fun q =>
    { slope := 0, intercept := pandas_quantile training_resource q, base := 2,
      min_allocation := min_allocation }

/-- The `__train_quantile__` stub: its body is `pass`, so it produces no
(model, quality) pair; the constructor's unpacking of this result is the
raised error, modelled as `none`. -/
def train_quantile : Option (LinearModel × Wastage) :=
  none

/-- The `__train__` dispatch: linear training when the predictor varies
enough, otherwise the quantile stub. -/
def train (varies_enough : Bool) (linear_result : LinearModel × Wastage) :
    Option (LinearModel × Wastage) :=
  if varies_enough then some linear_result else train_quantile

/-- The class constant `LowWastageRegression.min_base = 1.5`. -/
def low_wastage_min_base : ℚ :=
  3 / 2

/-- One evaluation of the `wastage` closure of `__train_linear__` at an
optimizer iterate `(slope, intercept, base)`: builds the candidate model
(base fixed at 2 unless the base is optimized), evaluates its wastage,
records the pair only when the iterate is feasible
(`not optimize_base or model_params[2] >= min_base`), and always returns
the objective `oversizing + undersizing`. -/
def record_iterate (optimize_base : Bool) (evalW : LinearModel → Wastage)
    (min_allocation : ℚ) (recorded : List (LinearModel × Wastage))
    (iterate : ℚ × ℚ × ℚ) : List (LinearModel × Wastage) × ℚ :=
  let params : LinearModel :=
    { slope := iterate.1, intercept := iterate.2.1,
      base := if optimize_base then iterate.2.2 else 2,
      min_allocation := min_allocation }
  let w := evalW params
  (if optimize_base = false ∨ (optimize_base = true ∧ low_wastage_min_base ≤ iterate.2.2)
   then recorded ++ [(params, w)] else recorded,
   w.oversizing + w.undersizing)

/-- The candidate pool built over a whole optimizer run: the `wastage`
closure applied in sequence to every iterate the optimizer evaluates. -/
def record_iterates (optimize_base : Bool) (evalW : LinearModel → Wastage)
    (min_allocation : ℚ) (iterates : List (ℚ × ℚ × ℚ)) : List (LinearModel × Wastage) :=
  iterates.foldl (fun recorded it => (record_iterate optimize_base evalW min_allocation recorded it).1) []

/-- The selection `max(zip(parameters_tried, wastages_tried), key=maq)`:
the first pair of maximal MAQ in the candidate pool. -/
def best_by_maq (head : LinearModel × Wastage) (rest : List (LinearModel × Wastage)) :
    LinearModel × Wastage :=
  rest.foldl (fun acc p => if acc.2.maq < p.2.maq then p else acc) head

/-- One row of the training table of `low_wastage_regression.py`: the
`input_size` (predictor), `rss` (resource) and `run_time` columns. -/
structure PJob where
  input_size : ℚ
  rss : ℚ
  run_time : ℚ
deriving Repr, DecidableEq

/-- Application of `__transform__` to a whole row, using the training
ScalingParams for the predictor and resource columns. -/
def normalize_pjob (shift_x scale_x shift_r scale_r : ℚ) (j : PJob) : PJob :=
  { input_size := (j.input_size - shift_x) / scale_x,
    rss := (j.rss - shift_r) / scale_r,
    run_time := j.run_time }

/-- Setting the `first_allocation` column by `model.apply` on the
predictor column. -/
def apply_population (m : LinearModel) (pop : List PJob) : List Job :=
  pop.map fun j => { rss := j.rss, run_time := j.run_time, first_allocation := m.apply j.input_size }

/-- The training ScalingParams of a population: shift and scale of the
predictor and resource columns, as fit in `__init__`. -/
def scaling_of (training : List PJob) : ℚ × ℚ × ℚ × ℚ :=
  (col_shift (training.map PJob.input_size), col_scale (training.map PJob.input_size),
   col_shift (training.map PJob.rss), col_scale (training.map PJob.rss))

/-- The wastage recorded during training for a candidate model: the
`wastage` closure evaluates `Wastage.exponential` on the NORMALIZED
training table after writing its `first_allocation` column. -/
def training_quality (training : List PJob) (m : LinearModel) (relative_ttf base : ℚ) :
    Option Wastage :=
  let sc := scaling_of training
  wastage_exponential
    (apply_population m (training.map (normalize_pjob sc.1 sc.2.1 sc.2.2.1 sc.2.2.2)))
    relative_ttf base

/-- The `predict` method: normalize the input with the TRAINING
ScalingParams, apply the model, inverse-transform the predictor and
resource columns, and return the `first_allocation` column — which is not
among the inverse-transformed columns and therefore stays in the
normalized resource space. -/
def predict (training data : List PJob) (m : LinearModel) : List ℚ :=
  let sc := scaling_of training
  (data.map (normalize_pjob sc.1 sc.2.1 sc.2.2.1 sc.2.2.2)).map fun j => m.apply j.input_size

/-- The recomputation performed by `test_train_evaluation`: write the
predictions of `predict` on the training table itself into its
`first_allocation` column (the other columns keeping their original,
unnormalized units) and evaluate `Wastage.exponential` on it. -/
def predicted_quality (training : List PJob) (m : LinearModel) (relative_ttf base : ℚ) :
    Option Wastage :=
  wastage_exponential
    (List.zipWith (fun (j : PJob) a => { rss := j.rss, run_time := j.run_time, first_allocation := a })
      training (predict training training m))
    relative_ttf base

/-- Oversizing of an optional wastage aggregate (zero for the error case);
a convenience accessor for stating results about `Option Wastage`. -/
def oversizing_of (w : Option Wastage) : ℚ :=
  (w.getD ⟨0, 0, 0, 0⟩).oversizing

/-- Usage of an optional wastage aggregate (zero for the error case). -/
def usage_of (w : Option Wastage) : ℚ :=
  (w.getD ⟨0, 0, 0, 0⟩).usage

/-! Helper lemmas about the retry escalation and the aggregates. -/

theorem kstar_of_le (a b r : ℚ) (h : r ≤ a) : kstar a b r = 0 := by
  unfold kstar kstarFuel
  simp [kstarAux, h]

theorem kstarAux_spec (b r : ℚ) (hb : 1 < b) :
    ∀ (n : ℕ) (a : ℚ), 0 < a → r ≤ a * b ^ n →
      r ≤ a * b ^ kstarAux n a b r ∧ ∀ j < kstarAux n a b r, a * b ^ j < r := by
  intro n
  induction n with
  | zero =>
    intro a _ h
    refine ⟨by simpa [kstarAux] using h, ?_⟩
    intro j hj
    exact absurd hj (Nat.not_lt_zero j)
  | succ n ih =>
    intro a ha h
    by_cases hra : r ≤ a
    · refine ⟨by simp [kstarAux, hra], ?_⟩
      intro j hj
      simp [kstarAux, hra] at hj
    · have hb0 : (0 : ℚ) < b := lt_trans one_pos hb
      have hab : 0 < a * b := mul_pos ha hb0
      have hpow : a * b ^ (n + 1) = a * b * b ^ n := by ring
      rw [hpow] at h
      obtain ⟨h1, h2⟩ := ih (a * b) hab h
      have hk : kstarAux (n + 1) a b r = kstarAux n (a * b) b r + 1 := by
        simp [kstarAux, hra]
      rw [hk]
      constructor
      · have : a * b ^ (kstarAux n (a * b) b r + 1) = a * b * b ^ kstarAux n (a * b) b r := by
          ring
        rw [this]
        exact h1
      · intro j hj
        cases j with
        | zero =>
          simpa using not_le.mp hra
        | succ j' =>
          have : a * b ^ (j' + 1) = a * b * b ^ j' := by ring
          rw [this]
          exact h2 j' (Nat.lt_of_succ_lt_succ hj)

theorem kstarFuel_spec (a b r : ℚ) (ha : 0 < a) (hb : 1 < b) :
    r ≤ a * b ^ kstarFuel a b r := by
  have hd : 0 < b - 1 := by linarith
  have hcn : (r / a - 1) / (b - 1) ≤ (kstarFuel a b r : ℚ) := by
    have h1 := Nat.le_ceil ((r / a - 1) / (b - 1))
    have h2 : (kstarFuel a b r : ℚ) = (⌈(r / a - 1) / (b - 1)⌉₊ : ℚ) + 1 := by
      unfold kstarFuel
      push_cast
      ring
    linarith
  have hber : 1 + (kstarFuel a b r : ℚ) * (b - 1) ≤ b ^ kstarFuel a b r := by
    have hB := one_add_mul_le_pow (a := b - 1) (by linarith) (kstarFuel a b r)
    have hb1 : 1 + (b - 1) = b := by ring
    rwa [hb1] at hB
  have hra : r / a ≤ b ^ kstarFuel a b r := by
    have h3 : r / a - 1 ≤ (kstarFuel a b r : ℚ) * (b - 1) := by
      have h4 := mul_le_mul_of_nonneg_right hcn hd.le
      rwa [div_mul_cancel₀ _ (ne_of_gt hd)] at h4
    linarith
  calc r = a * (r / a) := by field_simp
    _ ≤ a * b ^ kstarFuel a b r := mul_le_mul_of_nonneg_left hra ha.le

theorem kstar_spec (a b r : ℚ) (ha : 0 < a) (hb : 1 < b) :
    r ≤ a * b ^ kstar a b r ∧ ∀ j < kstar a b r, a * b ^ j < r :=
  kstarAux_spec b r hb (kstarFuel a b r) a ha (kstarFuel_spec a b r ha hb)

theorem sumAlloc_eq_sum (a b : ℚ) (k : ℕ) :
    sumAlloc a b k = ∑ i ∈ Finset.range k, a * b ^ i := by
  induction k with
  | zero => simp [sumAlloc]
  | succ k ih => rw [sumAlloc, Finset.sum_range_succ, ih]

theorem sumAllocSq_eq_sum (a b : ℚ) (k : ℕ) :
    sumAllocSq a b k = ∑ i ∈ Finset.range k, (a * b ^ i) ^ 2 := by
  induction k with
  | zero => simp [sumAllocSq]
  | succ k ih => rw [sumAllocSq, Finset.sum_range_succ, ih]

theorem sumAlloc_nonneg (a b : ℚ) (ha : 0 ≤ a) (hb : 0 ≤ b) (k : ℕ) :
    0 ≤ sumAlloc a b k := by
  induction k with
  | zero => simp [sumAlloc]
  | succ k ih =>
    rw [sumAlloc]
    have : 0 ≤ a * b ^ k := mul_nonneg ha (pow_nonneg hb k)
    linarith

theorem sumAllocSq_nonneg (a b : ℚ) (k : ℕ) : 0 ≤ sumAllocSq a b k := by
  induction k with
  | zero => simp [sumAllocSq]
  | succ k ih =>
    rw [sumAllocSq]
    have := sq_nonneg (a * b ^ k)
    linarith

theorem maq_nonneg_le_one (w : Wastage) (hu : 0 ≤ w.usage) (ho : 0 ≤ w.oversizing)
    (hun : 0 ≤ w.undersizing) : 0 ≤ w.maq ∧ w.maq ≤ 1 := by
  unfold Wastage.maq
  rcases eq_or_lt_of_le (by linarith : (0 : ℚ) ≤ w.usage + w.oversizing + w.undersizing) with hz | hp
  · rw [← hz, div_zero]
    norm_num
  · exact ⟨div_nonneg hu (by linarith), by rw [div_le_one hp]; linarith⟩

theorem naive_exp_fold (relative_ttf base : ℚ) :
    ∀ (df : List Job) (x y : ℚ) (z : ℕ),
      df.foldl
        (fun (acc : ℚ × ℚ × ℕ) row =>
          let u := undersizing_wastage_exponential row.rss (row.run_time * relative_ttf) row.first_allocation base
          (acc.1 + oversizing_wastage_exponential row.rss row.run_time row.first_allocation base,
           acc.2.1 + u.1, acc.2.2 + u.2))
        (x, y, z) =
      (x + (df.map fun j => oversizing_wastage_exponential j.rss j.run_time j.first_allocation base).sum,
       y + (df.map fun j => (undersizing_wastage_exponential j.rss (j.run_time * relative_ttf) j.first_allocation base).1).sum,
       z + (df.map fun j => (undersizing_wastage_exponential j.rss (j.run_time * relative_ttf) j.first_allocation base).2).sum) := by
  intro df
  induction df with
  | nil => intro x y z; simp
  | cons j rest ih =>
    intro x y z
    simp only [List.foldl_cons, List.map_cons, List.sum_cons]
    rw [ih]
    simp only [Prod.mk.injEq]
    refine ⟨by ring, by ring, by omega⟩

theorem wastage_3step_rows_ok (am av rttf : ℚ) :
    ∀ df : List Job, (∀ j ∈ df, ¬ av < j.rss) →
      wastage_3step_rows am av rttf df = some
        ((df.map fun j =>
            ((if j.rss ≤ j.first_allocation then j.first_allocation
              else if j.rss ≤ am then am else av) - j.rss) * j.run_time).sum,
         (df.map fun j =>
            (undersizing_wastage_3step j.rss (rttf * j.run_time) j.first_allocation am).1).sum,
         (df.map fun j =>
            (undersizing_wastage_3step j.rss (rttf * j.run_time) j.first_allocation am).2).sum) := by
  intro df
  induction df with
  | nil => intro _; simp [wastage_3step_rows]
  | cons j rest ih =>
    intro hall
    have hj : ¬ av < j.rss := hall j (List.mem_cons_self j rest)
    have hrest := ih fun x hx => hall x (List.mem_cons_of_mem j hx)
    simp [wastage_3step_rows, oversizing_wastage_3step, hj, hrest]

theorem wastage_3step_rows_err (am av rttf : ℚ) :
    ∀ df : List Job, (∃ j ∈ df, av < j.rss) →
      wastage_3step_rows am av rttf df = none := by
  intro df
  induction df with
  | nil =>
    rintro ⟨j, hj, -⟩
    cases hj
  | cons j rest ih =>
    rintro ⟨x, hx, hlt⟩
    rcases List.mem_cons.mp hx with rfl | hx'
    · simp [wastage_3step_rows, oversizing_wastage_3step, hlt]
    · by_cases hj : av < j.rss
      · simp [wastage_3step_rows, oversizing_wastage_3step, hj]
      · simp [wastage_3step_rows, oversizing_wastage_3step, hj, ih ⟨x, hx', hlt⟩]

theorem best_by_maq_mem (rest : List (LinearModel × Wastage)) :
    ∀ head, best_by_maq head rest ∈ head :: rest := by
  induction rest with
  | nil => intro head; simp [best_by_maq]
  | cons p ps ih =>
    intro head
    have hstep : best_by_maq head (p :: ps) =
        best_by_maq (if head.2.maq < p.2.maq then p else head) ps := rfl
    rw [hstep]
    rcases List.mem_cons.mp (ih (if head.2.maq < p.2.maq then p else head)) with heq | hmem
    · rw [heq]
      by_cases h : head.2.maq < p.2.maq
      · simp [h]
      · simp [h]
    · simp [List.mem_cons, Or.inr (Or.inr hmem)]

theorem record_iterates_aux (evalW : LinearModel → Wastage) (min_allocation : ℚ) :
    ∀ (iterates : List (ℚ × ℚ × ℚ)) (recorded : List (LinearModel × Wastage)),
      (∀ pw ∈ recorded, low_wastage_min_base ≤ pw.1.base) →
      ∀ pw ∈ iterates.foldl
          (fun r it => (record_iterate true evalW min_allocation r it).1) recorded,
        low_wastage_min_base ≤ pw.1.base := by
  intro iterates
  induction iterates with
  | nil => intro recorded h pw hpw; exact h pw hpw
  | cons it rest ih =>
    intro recorded h pw hpw
    refine ih _ ?_ pw hpw
    intro q hq
    unfold record_iterate at hq
    simp only at hq
    split at hq
    case isTrue hcond =>
      rcases List.mem_append.mp hq with hq' | hq'
      · exact h q hq'
      · simp only [List.mem_singleton] at hq'
        subst hq'
        rcases hcond with hfalse | ⟨-, hb⟩
        · exact absurd hfalse (by simp)
        · simpa using hb
    case isFalse hcond =>
      exact h q hq

theorem oversizing_exp_nonneg (r rt a b : ℚ) (ha : 0 < a) (hb : 1 < b) (hrt : 0 ≤ rt) :
    0 ≤ oversizing_wastage_exponential r rt a b :=
  mul_nonneg (sub_nonneg.mpr (kstar_spec a b r ha hb).1) hrt

theorem undersizing_exp_nonneg (r ttf a b : ℚ) (ha : 0 ≤ a) (hb : 0 ≤ b) (httf : 0 ≤ ttf) :
    0 ≤ (undersizing_wastage_exponential r ttf a b).1 :=
  mul_nonneg httf (sumAlloc_nonneg a b ha hb _)

theorem undersizing_prop_nonneg (r rt a b : ℚ) (hr : 0 ≤ r) (hrt : 0 ≤ rt) :
    0 ≤ (undersizing_wastage_prop_ttf r rt a b).1 :=
  mul_nonneg (div_nonneg hrt hr) (sumAllocSq_nonneg a b _)

theorem undersizing_3step_nonneg (r ttf f s : ℚ) (httf : 0 ≤ ttf) (hf : 0 ≤ f) (hs : 0 ≤ s) :
    0 ≤ (undersizing_wastage_3step r ttf f s).1 := by
  unfold undersizing_wastage_3step
  split_ifs
  · norm_num
  · simpa using mul_nonneg httf hf
  · simpa using mul_nonneg httf (by linarith : (0 : ℚ) ≤ f + s)

theorem oversizing_3step_val_nonneg (r rt f s fin : ℚ) (hrt : 0 ≤ rt) (hfin : r ≤ fin) :
    0 ≤ ((if r ≤ f then f else if r ≤ s then s else fin) - r) * rt := by
  refine mul_nonneg ?_ hrt
  split_ifs with h1 h2 <;> linarith

theorem list_map_sum_nonneg (df : List Job) (f : Job → ℚ) (h : ∀ j ∈ df, 0 ≤ f j) :
    0 ≤ (df.map f).sum := by
  refine List.sum_nonneg ?_
  rintro x hx
  rcases List.mem_map.mp hx with ⟨j, hj, rfl⟩
  exact h j hj

set_option maxHeartbeats 1000000 in
/-- Claim C6: for every non-empty job population, every retry policy of the
engine (exponential, proportional-ttf, three-step, simple) and every
assignment of positive first allocations, the aggregate has nonnegative
oversizing and undersizing and its MAQ `usage / (usage + oversizing +
undersizing)` lies in the closed interval from 0 to 1. -/
theorem maq_bound_all_policies (df : List Job) (relative_ttf base am av : ℚ)
    (hne : df ≠ [])
    (hrow : ∀ j ∈ df, 0 ≤ j.rss ∧ 0 ≤ j.run_time ∧ 0 < j.first_allocation)
    (httf : 0 ≤ relative_ttf) (hb : 1 < base) (ham : 0 ≤ am) :
    (∀ w, wastage_exponential df relative_ttf base = some w →
       0 ≤ w.oversizing ∧ 0 ≤ w.undersizing ∧ 0 ≤ w.maq ∧ w.maq ≤ 1) ∧
    (∀ w, wastage_exponential_prop_ttf df base = some w →
       0 ≤ w.oversizing ∧ 0 ≤ w.undersizing ∧ 0 ≤ w.maq ∧ w.maq ≤ 1) ∧
    (∀ w, wastage_3step df am av relative_ttf = some w →
       0 ≤ w.oversizing ∧ 0 ≤ w.undersizing ∧ 0 ≤ w.maq ∧ w.maq ≤ 1) ∧
    (∀ w, wastage_simple df = some w →
       0 ≤ w.oversizing ∧ 0 ≤ w.undersizing ∧ 0 ≤ w.maq ∧ w.maq ≤ 1) := by
  have husage : 0 ≤ (df.map fun j => j.run_time * j.rss).sum :=
    list_map_sum_nonneg df _ fun j hj => mul_nonneg (hrow j hj).2.1 (hrow j hj).1
  refine ⟨?_, ?_, ?_, ?_⟩
  · intro w hw
    rw [wastage_exponential, if_neg hne] at hw
    injection hw with hw
    subst hw
    have ho : 0 ≤ (df.map fun j =>
        oversizing_wastage_exponential j.rss j.run_time j.first_allocation base).sum :=
      list_map_sum_nonneg df _ fun j hj =>
        oversizing_exp_nonneg j.rss j.run_time j.first_allocation base (hrow j hj).2.2 hb (hrow j hj).2.1
    have hun : 0 ≤ (df.map fun j =>
        (undersizing_wastage_exponential j.rss (j.run_time * relative_ttf) j.first_allocation base).1).sum :=
      list_map_sum_nonneg df _ fun j hj =>
        undersizing_exp_nonneg j.rss (j.run_time * relative_ttf) j.first_allocation base
          (hrow j hj).2.2.le (by linarith) (mul_nonneg (hrow j hj).2.1 httf)
    exact ⟨ho, hun, (maq_nonneg_le_one _ husage ho hun).1, (maq_nonneg_le_one _ husage ho hun).2⟩
  · intro w hw
    rw [wastage_exponential_prop_ttf, if_neg hne] at hw
    injection hw with hw
    subst hw
    have ho : 0 ≤ (df.map fun j =>
        oversizing_wastage_exponential j.rss j.run_time j.first_allocation base).sum :=
      list_map_sum_nonneg df _ fun j hj =>
        oversizing_exp_nonneg j.rss j.run_time j.first_allocation base (hrow j hj).2.2 hb (hrow j hj).2.1
    have hun : 0 ≤ (df.map fun j =>
        (undersizing_wastage_prop_ttf j.rss j.run_time j.first_allocation base).1).sum :=
      list_map_sum_nonneg df _ fun j hj =>
        undersizing_prop_nonneg j.rss j.run_time j.first_allocation base (hrow j hj).1 (hrow j hj).2.1
    exact ⟨ho, hun, (maq_nonneg_le_one _ husage ho hun).1, (maq_nonneg_le_one _ husage ho hun).2⟩
  · intro w hw
    rw [wastage_3step, if_neg hne] at hw
    split at hw
    · exact absurd hw (by simp)
    case isFalse hany =>
      injection hw with hw
      subst hw
      have hall : ∀ j ∈ df, j.rss ≤ av := by
        intro j hj
        by_contra hlt
        exact hany (List.any_eq_true.mpr ⟨j, hj, by simpa using not_le.mp hlt⟩)
      have ho : 0 ≤ (df.map fun j =>
          ((if j.rss ≤ j.first_allocation then j.first_allocation
            else if j.rss ≤ am then am else av) - j.rss) * j.run_time).sum :=
        list_map_sum_nonneg df _ fun j hj =>
          oversizing_3step_val_nonneg j.rss j.run_time j.first_allocation am av
            (hrow j hj).2.1 (hall j hj)
      have hun : 0 ≤ (df.map fun j =>
          (undersizing_wastage_3step j.rss (relative_ttf * j.run_time) j.first_allocation am).1).sum :=
        list_map_sum_nonneg df _ fun j hj =>
          undersizing_3step_nonneg j.rss (relative_ttf * j.run_time) j.first_allocation am
            (mul_nonneg httf (hrow j hj).2.1) (hrow j hj).2.2.le ham
      exact ⟨ho, hun, (maq_nonneg_le_one _ husage ho hun).1, (maq_nonneg_le_one _ husage ho hun).2⟩
  · intro w hw
    rw [wastage_simple, if_neg hne] at hw
    injection hw with hw
    subst hw
    have ho : 0 ≤ (df.map fun j =>
        if j.rss ≤ j.first_allocation then j.first_allocation - j.rss else 0).sum :=
      list_map_sum_nonneg df _ fun j hj => by
        split_ifs with h1
        · linarith
        · norm_num
    have hun : 0 ≤ (df.map fun j =>
        if j.rss ≤ j.first_allocation then 0 else j.first_allocation).sum :=
      list_map_sum_nonneg df _ fun j hj => by
        split_ifs with h1
        · norm_num
        · exact (hrow j hj).2.2.le
    have husimple : 0 ≤ (df.map fun j =>
        if j.rss ≤ j.first_allocation then j.rss else 0).sum :=
      list_map_sum_nonneg df _ fun j hj => by
        split_ifs with h1
        · exact (hrow j hj).1
        · norm_num
    exact ⟨ho, hun, (maq_nonneg_le_one _ husimple ho hun).1, (maq_nonneg_le_one _ husimple ho hun).2⟩

/-- Witness for C6: on the one-job population with usage 1, run time 1
and first allocation 2 the exponential aggregate is oversizing 1,
undersizing 0, usage 1, and its MAQ is within bounds. -/
theorem maq_bound_all_policies_witness :
    0 ≤ (Wastage.mk 1 0 1 0).oversizing ∧ 0 ≤ (Wastage.mk 1 0 1 0).undersizing ∧
      0 ≤ (Wastage.mk 1 0 1 0).maq ∧ (Wastage.mk 1 0 1 0).maq ≤ 1 :=
  (maq_bound_all_policies [⟨1, 1, 2⟩] (1/2) 2 1 1 (by simp)
    (by
      rintro j hj
      simp only [List.mem_singleton] at hj
      subst hj
      refine ⟨by norm_num, by norm_num, by norm_num⟩)
    (by norm_num) (by norm_num) (by norm_num)).1 ⟨1, 0, 1, 0⟩
    (by
      have hk : kstar 2 2 1 = 0 := kstar_of_le 2 2 1 (by norm_num)
      simp only [wastage_exponential, oversizing_wastage_exponential,
        undersizing_wastage_exponential, hk, sumAlloc, List.map_cons, List.map_nil,
        List.sum_cons, List.sum_nil, if_neg (by simp : ¬([⟨1, 1, 2⟩] : List Job) = [])]
      norm_num)

theorem kstar_eq_of (a b r : ℚ) (ha : 0 < a) (hb : 1 < b) (k : ℕ)
    (h1 : r ≤ a * b ^ k) (h2 : ∀ j < k, a * b ^ j < r) : kstar a b r = k := by
  obtain ⟨hs1, hs2⟩ := kstar_spec a b r ha hb
  rcases lt_trichotomy (kstar a b r) k with h | h | h
  · exact absurd hs1 (not_le.mpr (h2 _ h))
  · exact h
  · exact absurd h1 (not_le.mpr (hs2 _ h))

/-- Claim C3: under the exponential policy the failure count of a job is the
smallest `k` with `first_allocation * base ^ k ≥ resource_usage`,
the undersizing is `relative_ttf * run_time` times the sum of the failed
attempts' allocations, the oversizing is the successful attempt's excess
times the run time; in particular `real_usage=10, abs_ttf=2,
first_allocation=1, base=2` gives undersizing 30 with 4 failures and
`real_usage=20, run_time=2, first_allocation=7, base=2` gives
oversizing 16. -/
theorem exponential_policy_characterization
    (real_usage run_time first_allocation base relative_ttf : ℚ)
    (ha : 0 < first_allocation) (hb : 1 < base) :
    (real_usage ≤ first_allocation * base ^ kstar first_allocation base real_usage ∧
      ∀ j < kstar first_allocation base real_usage, first_allocation * base ^ j < real_usage) ∧
    undersizing_wastage_exponential real_usage (run_time * relative_ttf) first_allocation base =
      (relative_ttf * run_time *
        ∑ i ∈ Finset.range (kstar first_allocation base real_usage), first_allocation * base ^ i,
       kstar first_allocation base real_usage) ∧
    oversizing_wastage_exponential real_usage run_time first_allocation base =
      (first_allocation * base ^ kstar first_allocation base real_usage - real_usage) * run_time ∧
    undersizing_wastage_exponential 10 2 1 2 = (30, 4) ∧
    oversizing_wastage_exponential 20 2 7 2 = 16 := by
  refine ⟨kstar_spec _ _ _ ha hb, ?_, rfl, ?_, ?_⟩
  · simp only [undersizing_wastage_exponential, sumAlloc_eq_sum, Prod.mk.injEq]
    exact ⟨by ring, trivial⟩
  · have hk : kstar 1 2 10 = 4 :=
      kstar_eq_of 1 2 10 (by norm_num) (by norm_num) 4 (by norm_num)
        (by intro j hj; interval_cases j <;> norm_num)
    simp only [undersizing_wastage_exponential, hk, Prod.mk.injEq]
    refine ⟨?_, trivial⟩
    simp [sumAlloc]
    norm_num
  · have hk : kstar 7 2 20 = 2 :=
      kstar_eq_of 7 2 20 (by norm_num) (by norm_num) 2 (by norm_num)
        (by intro j hj; interval_cases j <;> norm_num)
    simp only [oversizing_wastage_exponential, hk]
    norm_num

/-- Witness for C3 at the literal scenario `real_usage=10, abs_ttf=2,
first_allocation=1, base=2`. -/
theorem exponential_policy_characterization_witness :
    undersizing_wastage_exponential 10 2 1 2 = (30, 4) :=
  (exponential_policy_characterization 10 2 1 2 1 (by norm_num) (by norm_num)).2.2.2.1

/-- Claim C4: under the proportional-time-to-failure policy the undersizing of
a job is `run_time / resource_usage` times the sum of the squared failed
allocations, the retry sequence and failure count are those of the
exponential policy (the oversizing column of the population aggregate is
computed by the same exponential per-job oversizing); the literal
scenario `resource_usage=10, run_time=5, first_allocation=1, base=2`
gives failures 4, usage 50, oversizing 30, undersizing 42.5. -/
theorem prop_ttf_policy_characterization (real_usage run_time first_allocation base : ℚ)
    (ha : 0 < first_allocation) (hb : 1 < base) :
    undersizing_wastage_prop_ttf real_usage run_time first_allocation base =
      (run_time / real_usage *
        ∑ i ∈ Finset.range (kstar first_allocation base real_usage),
          (first_allocation * base ^ i) ^ 2,
       kstar first_allocation base real_usage) ∧
    (∀ abs_ttf, (undersizing_wastage_prop_ttf real_usage run_time first_allocation base).2 =
       (undersizing_wastage_exponential real_usage abs_ttf first_allocation base).2) ∧
    wastage_exponential_prop_ttf [⟨10, 5, 1⟩] 2 =
      some { oversizing := 30, undersizing := 85/2, usage := 50, failures := 4 } := by
  refine ⟨?_, fun _ => rfl, ?_⟩
  · simp only [undersizing_wastage_prop_ttf, sumAllocSq_eq_sum]
  · have hk : kstar 1 2 10 = 4 :=
      kstar_eq_of 1 2 10 (by norm_num) (by norm_num) 4 (by norm_num)
        (by intro j hj; interval_cases j <;> norm_num)
    have hu : undersizing_wastage_prop_ttf 10 5 1 2 = (85/2, 4) := by
      simp only [undersizing_wastage_prop_ttf, hk, Prod.mk.injEq]
      refine ⟨?_, trivial⟩
      simp [sumAllocSq]
      norm_num
    have ho : oversizing_wastage_exponential 10 5 1 2 = 30 := by
      simp only [oversizing_wastage_exponential, hk]
      norm_num
    simp only [wastage_exponential_prop_ttf, List.map_cons, List.map_nil, List.sum_cons,
      List.sum_nil, if_neg (by simp : ¬([(⟨10, 5, 1⟩ : Job)] : List Job) = [])]
    simp [hu, ho]
    norm_num

/-- Witness for C4 at the literal scenario `resource_usage=10,
run_time=5, first_allocation=1, base=2`. -/
theorem prop_ttf_policy_characterization_witness :
    wastage_exponential_prop_ttf [⟨10, 5, 1⟩] 2 =
      some { oversizing := 30, undersizing := 85/2, usage := 50, failures := 4 } :=
  (prop_ttf_policy_characterization 10 5 1 2 (by norm_num) (by norm_num)).2.2

/-- Claim C5: under the three-step policy a job whose `final_allocation` is
below its resource usage is a fatal error: the per-job oversizing
computation returns no result, any population containing such a job
aborts as a whole, and this holds independently of whether the first or
second attempt would already have succeeded; the two literal scenarios
(`real_usage=3, first=1, second=2, final=2.5` and `real_usage=5, first=5,
second=2, final=3`, where the first attempt succeeds) both abort. -/
theorem three_step_precondition_fatal
    (real_usage run_time first_allocation second_allocation final_allocation : ℚ)
    (h : final_allocation < real_usage) :
    oversizing_wastage_3step real_usage run_time first_allocation second_allocation
      final_allocation = none ∧
    (∀ df max_seen_so_far relative_ttf,
       (⟨real_usage, run_time, first_allocation⟩ : Job) ∈ df →
       wastage_3step df max_seen_so_far final_allocation relative_ttf = none) ∧
    oversizing_wastage_3step 3 1 1 2 (5/2) = none ∧
    oversizing_wastage_3step 5 2 5 2 3 = none := by
  refine ⟨by simp [oversizing_wastage_3step, h], ?_, ?_, ?_⟩
  · intro df am rttf hmem
    have hne : df ≠ [] := List.ne_nil_of_mem hmem
    have hany : (df.any fun j => final_allocation < j.rss) = true :=
      List.any_eq_true.mpr ⟨⟨real_usage, run_time, first_allocation⟩, hmem, by simpa using h⟩
    simp [wastage_3step, hne, hany]
  · norm_num [oversizing_wastage_3step]
  · norm_num [oversizing_wastage_3step]

/-- Witness for C5 at the scenario where the first attempt succeeds but
the final allocation is still below the resource usage. -/
theorem three_step_precondition_fatal_witness :
    oversizing_wastage_3step 5 2 5 2 3 = none :=
  (three_step_precondition_fatal 5 2 5 2 3 (by norm_num)).1

/-- Claim C2: for every non-empty job population the vectorized exponential and
three-step aggregates coincide exactly (hence to any number of decimal
places, and with identical failure counts and MAQ) with the naive
per-job reference loops of `test_wastage.py`. -/
theorem vectorized_naive_equivalence (df : List Job) (relative_ttf base am av : ℚ)
    (hne : df ≠ []) :
    wastage_exponential df relative_ttf base = wastage_exponential_naive df relative_ttf base ∧
    wastage_3step df am av relative_ttf = wastage_3step_naive df am av relative_ttf := by
  constructor
  · simp only [wastage_exponential, wastage_exponential_naive, if_neg hne]
    rw [naive_exp_fold]
    simp
  · by_cases hany : (df.any fun j => av < j.rss) = true
    · have hrows : wastage_3step_rows am av relative_ttf df = none := by
        apply wastage_3step_rows_err
        obtain ⟨j, hj, hjlt⟩ := List.any_eq_true.mp hany
        exact ⟨j, hj, by simpa using hjlt⟩
      simp [wastage_3step, wastage_3step_naive, if_neg hne, hany, hrows]
    · have hall : ∀ j ∈ df, ¬ av < j.rss := by
        intro j hj hlt
        exact hany (List.any_eq_true.mpr ⟨j, hj, by simpa using hlt⟩)
      have hrows := wastage_3step_rows_ok am av relative_ttf df hall
      simp [wastage_3step, wastage_3step_naive, if_neg hne, hany, hrows]

/-- Witness for C2 on a concrete one-job population. -/
theorem vectorized_naive_equivalence_witness :
    wastage_exponential [⟨1, 1, 2⟩] (1/2) 2 = wastage_exponential_naive [⟨1, 1, 2⟩] (1/2) 2 :=
  (vectorized_naive_equivalence [⟨1, 1, 2⟩] (1/2) 2 1 1 (by simp)).1

/-- Claim C7: applying `__transform__` and then `__inverse_transform__` with
the scaling parameters fit on any training column returns any input
vector unchanged element-wise; for a zero-range training column the
scale defaults to 1, so the round-trip is exact there as well. -/
theorem transform_inverse_roundtrip (training_column v : List ℚ) :
    inverse_transform_column (col_shift training_column) (col_scale training_column)
      (transform_column (col_shift training_column) (col_scale training_column) v) = v ∧
    (col_ptp training_column = 0 → col_scale training_column = 1) := by
  have hsc : col_scale training_column ≠ 0 := by
    unfold col_scale
    split_ifs with h
    · exact h
    · norm_num
  constructor
  · unfold inverse_transform_column transform_column
    rw [List.map_map]
    have hfun : ((fun x => x * col_scale training_column + col_shift training_column) ∘
        fun x => (x - col_shift training_column) / col_scale training_column) = id := by
      funext x
      simp only [Function.comp_apply, id_eq]
      field_simp
    rw [hfun, List.map_id]
  · intro h
    unfold col_scale
    simp [h]

/-- Witness for C7 on the zero-variance column of `test_transform`. -/
theorem transform_inverse_roundtrip_witness :
    inverse_transform_column (col_shift [7, 7, 7]) (col_scale [7, 7, 7])
      (transform_column (col_shift [7, 7, 7]) (col_scale [7, 7, 7]) [7, 7, 7]) = [7, 7, 7] :=
  (transform_inverse_roundtrip [7, 7, 7] [7, 7, 7]).1

/-- Claim C10: when the predictor column's range is at most 5% of its mean the
`__predictor_varies_enough__` guard is false, `__train__` dispatches to
the `__train_quantile__` stub, and training produces no (model, quality)
pair: the constructor's unpacking fails instead of yielding a trained
model. -/
theorem train_fails_when_predictor_uninformative (initial_ptp unscaled_mean_predictor : ℚ)
    (linear_result : LinearModel × Wastage)
    (h : initial_ptp ≤ 0.05 * unscaled_mean_predictor) :
    predictor_varies_enough initial_ptp unscaled_mean_predictor = false ∧
    train (predictor_varies_enough initial_ptp unscaled_mean_predictor) linear_result = none := by
  have hf : predictor_varies_enough initial_ptp unscaled_mean_predictor = false := by
    unfold predictor_varies_enough
    simp only [decide_eq_false_iff_not, not_lt]
    exact h
  exact ⟨hf, by simp [train, hf, train_quantile]⟩

/-- Witness for C10 at range 1 and mean 100 (1 is at most 5% of 100). -/
theorem train_fails_when_predictor_uninformative_witness :
    train (predictor_varies_enough 1 100) (⟨0, 0, 2, 0⟩, ⟨0, 0, 0, 0⟩) = none :=
  (train_fails_when_predictor_uninformative 1 100 (⟨0, 0, 2, 0⟩, ⟨0, 0, 0, 0⟩) (by norm_num)).2

/-- Claim C9: when the retry-growth factor is optimized, every (parameters,
wastage) pair recorded in the candidate pool has base at least
`min_base = 1.5`; infeasible iterates still get their objective
`oversizing + undersizing` evaluated but are never appended, and the
selected best pair (first maximum by MAQ) therefore has base at least
1.5. -/
theorem base_constraint_invariant (evalW : LinearModel → Wastage) (min_allocation : ℚ)
    (iterates : List (ℚ × ℚ × ℚ)) (head : LinearModel × Wastage)
    (rest : List (LinearModel × Wastage))
    (hrec : record_iterates true evalW min_allocation iterates = head :: rest) :
    (∀ pw ∈ record_iterates true evalW min_allocation iterates,
       low_wastage_min_base ≤ pw.1.base) ∧
    (∀ recorded it, (record_iterate true evalW min_allocation recorded it).2 =
       (evalW ⟨it.1, it.2.1, it.2.2, min_allocation⟩).oversizing +
       (evalW ⟨it.1, it.2.1, it.2.2, min_allocation⟩).undersizing) ∧
    low_wastage_min_base ≤ (best_by_maq head rest).1.base := by
  have hall : ∀ pw ∈ record_iterates true evalW min_allocation iterates,
      low_wastage_min_base ≤ pw.1.base :=
    record_iterates_aux evalW min_allocation iterates [] (by intro pw hpw; cases hpw)
  refine ⟨hall, fun recorded it => rfl, ?_⟩
  have hmem := best_by_maq_mem rest head
  rw [← hrec] at hmem
  exact hall _ hmem

/-- Witness for C9 on a single feasible iterate with base 2. -/
theorem base_constraint_invariant_witness :
    low_wastage_min_base ≤
      (best_by_maq (⟨0, 0, 2, 0⟩, Wastage.mk 0 0 0 0) []).1.base :=
  (base_constraint_invariant (fun _ => Wastage.mk 0 0 0 0) 0 [(0, 0, 2)]
    (⟨0, 0, 2, 0⟩, Wastage.mk 0 0 0 0) [] (by
      show record_iterates true (fun _ => Wastage.mk 0 0 0 0) 0 [(0, 0, 2)] = _
      unfold record_iterates record_iterate
      simp [low_wastage_min_base]
      norm_num)).2.2

/-- Claim C8 evaluation: the uninformative-predictor branch of
`__quantile_regression__` does return zero-slope models, but their
intercepts are quantiles of the (normalized) PREDICTOR column, not of the
resource column: the guard triggers on the predictor data
[100, 100, 101] (range 1, at most 5% of the mean), and on normalized
predictor column [0, 0, 1] and resource column [0, 1, 1] the sweep level
0.51 yields intercept 1/50 from the code where the specified behaviour
yields 1, so the two intercept lists differ. -/
theorem quantile_regression_uninformative_uses_predictor_column :
    predictor_varies_enough (col_ptp [100, 100, 101]) ((100 + 100 + 101) / 3) = false ∧
    (∀ m ∈ quantile_regression_uninformative [0, 0, 1] 1, m.slope = 0) ∧
    (quantile_regression_uninformative [0, 0, 1] 1).map LinearModel.intercept =
      quantile_candidates.map (pandas_quantile [0, 0, 1]) ∧
    (quantile_regression_uninformative_spec [0, 1, 1] 1).map LinearModel.intercept =
      quantile_candidates.map (pandas_quantile [0, 1, 1]) ∧
    (51/100 : ℚ) ∈ quantile_candidates ∧
    pandas_quantile [0, 0, 1] (51/100) = 1/50 ∧
    pandas_quantile [0, 1, 1] (51/100) = 1 ∧
    (quantile_regression_uninformative [0, 0, 1] 1).map LinearModel.intercept ≠
      (quantile_regression_uninformative_spec [0, 1, 1] 1).map LinearModel.intercept := by
  have hguard : predictor_varies_enough (col_ptp [100, 100, 101]) ((100 + 100 + 101) / 3) = false := by
    have h : col_ptp [100, 100, 101] = 1 := by norm_num [col_ptp, col_max, col_min]
    rw [h, predictor_varies_enough]
    norm_num
  have hslope : ∀ m ∈ quantile_regression_uninformative [0, 0, 1] 1, m.slope = 0 := by
    intro m hm
    rcases List.mem_map.mp hm with ⟨q, -, rfl⟩
    rfl
  have hcode : (quantile_regression_uninformative [0, 0, 1] 1).map LinearModel.intercept =
      quantile_candidates.map (pandas_quantile [0, 0, 1]) := by
    rw [quantile_regression_uninformative, List.map_map]
    rfl
  have hspec : (quantile_regression_uninformative_spec [0, 1, 1] 1).map LinearModel.intercept =
      quantile_candidates.map (pandas_quantile [0, 1, 1]) := by
    rw [quantile_regression_uninformative_spec, List.map_map]
    rfl
  have hr : List.range 5 = [0, 1, 2, 3, 4] := by decide
  have hmem : (51/100 : ℚ) ∈ quantile_candidates := by
    have h5 : (1 : ℚ) - (1 / 100 + ((4 : ℕ) : ℚ) * (69 / 400)) ^ 2 = 51/100 := by
      push_cast
      norm_num
    have hq : quantile_candidates =
        [1 - (1 / 100 + ((0 : ℕ) : ℚ) * (69 / 400)) ^ 2,
         1 - (1 / 100 + ((1 : ℕ) : ℚ) * (69 / 400)) ^ 2,
         1 - (1 / 100 + ((2 : ℕ) : ℚ) * (69 / 400)) ^ 2,
         1 - (1 / 100 + ((3 : ℕ) : ℚ) * (69 / 400)) ^ 2,
         1 - (1 / 100 + ((4 : ℕ) : ℚ) * (69 / 400)) ^ 2] := by
      rw [quantile_candidates, hr]
      rfl
    rw [hq, ← h5]
    exact List.mem_cons_of_mem _ (List.mem_cons_of_mem _ (List.mem_cons_of_mem _
      (List.mem_cons_of_mem _ (List.mem_cons_self _ _))))
  have hp : pandas_quantile [0, 0, 1] (51/100) = 1/50 := by
    have hs : sortColumn [0, 0, 1] = [0, 0, 1] := by norm_num [sortColumn, insertSorted]
    rw [pandas_quantile, hs]
    norm_num [List.getD]
  have hres : pandas_quantile [0, 1, 1] (51/100) = 1 := by
    have hs : sortColumn [0, 1, 1] = [0, 1, 1] := by norm_num [sortColumn, insertSorted]
    rw [pandas_quantile, hs]
    norm_num [List.getD]
  refine ⟨hguard, hslope, hcode, hspec, hmem, hp, hres, ?_⟩
  intro hEq
  rw [hcode, hspec] at hEq
  have := (List.map_inj_left.mp hEq) (51/100) hmem
  rw [hp, hres] at this
  norm_num at this

/-- Claim C1 evaluation: the train/predict consistency required by the spec and
by `test_train_evaluation` fails on the code.  On the two-job training
population with predictor column [0, 100], resource column [100, 200],
run times 1 and `min_allocation = 1000`, the quality recorded during
training evaluates the wastage on the NORMALIZED resource column, while
`predict` returns the `first_allocation` column without inverse
transformation, so the recomputation of `test_train_evaluation` compares
those normalized allocations against the RAW resource column: whatever
model parameters training selected, the recorded usage is 1 but the
recomputed usage is 300, and the recorded oversizing exceeds the
recomputed one by exactly 299, so the two aggregates never agree to 2
decimal places. -/
theorem train_predict_inconsistency (slope intercept b relative_ttf base : ℚ) :
    usage_of (training_quality [⟨0, 100, 1⟩, ⟨100, 200, 1⟩]
      ⟨slope, intercept, b, 1000⟩ relative_ttf base) = 1 ∧
    usage_of (predicted_quality [⟨0, 100, 1⟩, ⟨100, 200, 1⟩]
      ⟨slope, intercept, b, 1000⟩ relative_ttf base) = 300 ∧
    oversizing_of (training_quality [⟨0, 100, 1⟩, ⟨100, 200, 1⟩]
      ⟨slope, intercept, b, 1000⟩ relative_ttf base) =
      oversizing_of (predicted_quality [⟨0, 100, 1⟩, ⟨100, 200, 1⟩]
        ⟨slope, intercept, b, 1000⟩ relative_ttf base) + 299 := by
  have hsc : scaling_of [⟨0, 100, 1⟩, ⟨100, 200, 1⟩] = (0, 100, 100, 100) := by
    unfold scaling_of col_shift col_scale col_ptp col_min col_max
    norm_num
  have hov : ∀ (e r rt bb : ℚ), r ≤ 1000 →
      oversizing_wastage_exponential r rt (max 1000 e) bb = (max 1000 e - r) * rt := by
    intro e r rt bb hr
    unfold oversizing_wastage_exponential
    rw [kstar_of_le _ _ _ (le_trans hr (le_max_left _ _))]
    norm_num
  simp only [training_quality, predicted_quality, predict, hsc, apply_population,
    normalize_pjob, List.map_cons, List.map_nil, List.zipWith_cons_cons, List.zipWith_nil,
    LinearModel.apply, wastage_exponential, usage_of, oversizing_of]
  norm_num
  rw [hov intercept 0 1 base (by norm_num), hov (slope + intercept) 1 1 base (by norm_num),
    hov intercept 100 1 base (by norm_num), hov (slope + intercept) 200 1 base (by norm_num)]
  refine ⟨?_, ?_, ?_⟩
  · simp
  · simp
  · simp
    ring
